import Mathlib

/-!
Verification of the negotiation relay protocol of this repository.

The development shallowly embeds the session/termination state machine of
`src/server/relay_server_ai.py` (class `AIRelayServer`) and the turn
post-processing of `src/agents/base_agent_ai.py` (class `BaseAgentAI`).

Modelling conventions:
* A Python attribute holding a websocket-or-None (`company_agent`,
  `investor_agent`, `client`) is modelled as a `Bool` recording presence;
  the actual socket handles and the `clients` dict are irrelevant to the
  protocol logic.
* `datetime.now()` timestamps are dropped: no protocol decision reads them.
* The external model call (`self.client.models.generate_content`) together
  with the markdown-fence stripping and `json.loads` of its output is
  modelled as a function `OracleQuery → OracleResult`: `raises` stands for
  an exception during the call, `malformed` for output that `json.loads`
  rejects, `parsed a` for a successfully decoded JSON object.  In the
  Python source all three meet the same `try/except` whose handler returns
  `None`.
* A decoded JSON analysis object is modelled by `Analysis`:
  `should_end` is the truthiness of `analysis.get("should_end")`,
  `status` / `reason` are `analysis.get(...)` (absent key ↦ `none`),
  `confidence` models `analysis.get("confidence", 0)` with the float
  compared against the literal `0.7` rendered as the rational `7/10`
  (every comparison the claims exercise is far from the threshold, where
  float and rational ordering agree).
* Network sends are recorded as a list of `Event`s in program order.
-/

/-- The two agent roles connected to the relay. -/
inductive Party
  | company
  | investor
deriving Repr, DecidableEq

/-- Payload of a `message` envelope as read by
`AIRelayServer.handle_negotiation_message` via `data.get(...)`:
a missing key yields `none` (`turn` defaults to `0`). -/
structure MessageData where
  sender : Option String
  role : Option String
  text : Option String
  turn : Nat
deriving Repr, DecidableEq

/-- Payload of a `register` envelope (`data.get("role")`, `data.get("name")`). -/
structure RegisterData where
  role : Option String
  name : Option String
deriving Repr, DecidableEq

/-- One entry of `self.conversation_history` (timestamp dropped, see header). -/
structure Turn where
  sender : Option String
  role : Option String
  text : Option String
  turn : Nat
deriving Repr, DecidableEq

/-- A network send performed by the relay, in program order. -/
inductive Event
  | session_start (dest : Party) (company investor : Option String)
  | relay_to_investor (d : MessageData)
  | relay_to_company (d : MessageData)
  | conclusion_msg (dest : Party) (status reason : String) (total_turns : Nat)
  | end_msg (dest : Party) (reason : String)
deriving Repr, DecidableEq

/-- The decoded JSON object produced by the termination-judgment prompt of
`AIRelayServer._ai_analyze_termination` (see header for field conventions). -/
structure Analysis where
  should_end : Bool
  status : Option String
  reason : Option String
  confidence : Option ℚ
deriving Repr, DecidableEq

/-- Outcome of one oracle judgment call, covering the exception and
JSON-decoding behaviour of the `try/except` in `_ai_analyze_termination`. -/
inductive OracleResult
  | raises
  | malformed
  | parsed (a : Analysis)
deriving Repr, DecidableEq

/-- The context submitted to the oracle by `_ai_analyze_termination`: the
bounded recent-history window plus the session metadata interpolated into
the prompt string. -/
structure OracleQuery where
  recent : List Turn
  company_name : Option String
  investor_name : Option String
  turn_count : Nat
  min_turns : Nat
  max_turns : Nat
deriving Repr, DecidableEq

/-- Mutable state of `AIRelayServer` (see `__init__`, lines 33-62). -/
structure ServerState where
  company_agent : Bool
  investor_agent : Bool
  company_name : Option String
  investor_name : Option String
  session_active : Bool
  turn_count : Nat
  min_turns : Nat
  max_turns : Nat
  conversation_history : List Turn
  client : Bool
deriving Repr, DecidableEq

/-- `AIRelayServer.__init__`: fresh server state.  `client` records whether a
`GEMINI_API_KEY` was present (oracle available). -/
def initialState (client : Bool) : ServerState :=
  { company_agent := false
    investor_agent := false
    company_name := none
    investor_name := none
    session_active := false
    turn_count := 0
    min_turns := 6
    max_turns := 20
    conversation_history := []
    client := client }

/-- Result of processing one inbound envelope: the new state, the sends
performed, the oracle judgment queries issued, and the `(status, reason)`
pair passed to `end_session` when a termination fired. -/
structure StepResult where
  state : ServerState
  events : List Event
  queries : List OracleQuery
  decision : Option (String × String)
deriving Repr

/-- `AIRelayServer.end_session` (lines 308-359): broadcast the conclusion
and the end envelope to whichever agents are connected, then clear
`session_active`.  The conclusion text itself is oracle-generated prose
(out of scope); the structured fields are kept. -/
def end_session (s : ServerState) (status reason : String) : ServerState × List Event :=
  ( { s with session_active := false },
    (if s.company_agent then [Event.conclusion_msg Party.company status reason s.turn_count] else [])
      ++ (if s.investor_agent then [Event.conclusion_msg Party.investor status reason s.turn_count] else [])
      ++ (if s.company_agent then [Event.end_msg Party.company reason] else [])
      ++ (if s.investor_agent then [Event.end_msg Party.investor reason] else []) )

/-- `self.conversation_history[-6:] if len(self.conversation_history) > 6
else self.conversation_history` (line 219). -/
def recentWindow (s : ServerState) : List Turn :=
  if s.conversation_history.length > 6 then
    s.conversation_history.drop (s.conversation_history.length - 6)
  else s.conversation_history

/-- The context interpolated into the judgment prompt (lines 219-234). -/
def buildQuery (s : ServerState) : OracleQuery :=
  { recent := recentWindow s
    company_name := s.company_name
    investor_name := s.investor_name
    turn_count := s.turn_count
    min_turns := s.min_turns
    max_turns := s.max_turns }

/-- `AIRelayServer._ai_analyze_termination` (lines 206-306): guard on client
presence, guard on even turn parity, one oracle call, then the gate
`analysis.get("should_end") and analysis.get("confidence", 0) > 0.7`.
Returns the accepted analysis (or `none`) plus the queries issued. -/
def ai_analyze_termination (s : ServerState) (oracle : OracleQuery → OracleResult) :
    Option Analysis × List OracleQuery :=
  if s.client = false then (none, [])
  else if s.turn_count % 2 ≠ 0 then (none, [])
  else
    match oracle (buildQuery s) with
    | OracleResult.raises => (none, [buildQuery s])
    | OracleResult.malformed => (none, [buildQuery s])
    | OracleResult.parsed a =>
        if a.should_end = true ∧ (7 : ℚ)/10 < a.confidence.getD 0 then (some a, [buildQuery s])
        else (none, [buildQuery s])

/-- `AIRelayServer.ai_check_termination` (lines 180-204): minimum-turn
guard, hard maximum ceiling, then the oracle analysis; an accepted analysis
ends the session with `analysis.get("status", "ONGOING")` and
`analysis.get("reason", "AI determined negotiation complete")`. -/
def ai_check_termination (s : ServerState) (oracle : OracleQuery → OracleResult) : StepResult :=
  if s.turn_count < s.min_turns then ⟨s, [], [], none⟩
  else if s.turn_count ≥ s.max_turns then
    let status := "MAX_TURNS_REACHED"
    let reason := "Reached maximum " ++ toString s.max_turns ++ " turns. Parties need more time."
    let r := end_session s status reason
    ⟨r.1, r.2, [], some (status, reason)⟩
  else if s.client = true ∧ s.turn_count ≥ s.min_turns then
    match ai_analyze_termination s oracle with
    | (some a, qs) =>
        let status := a.status.getD "ONGOING"
        let reason := a.reason.getD "AI determined negotiation complete"
        let r := end_session s status reason
        ⟨r.1, r.2, qs, some (status, reason)⟩
    | (none, qs) => ⟨s, [], qs, none⟩
  else ⟨s, [], [], none⟩

/-- The history entry appended for an inbound `message` envelope. -/
def mkTurn (d : MessageData) : Turn :=
  { sender := d.sender, role := d.role, text := d.text, turn := d.turn }

/-- `AIRelayServer.handle_negotiation_message` (lines 151-178): append to
history, increment `turn_count`, relay to the counterparty when the role is
recognized and that agent is connected, then run the termination check. -/
def handle_negotiation_message (s : ServerState) (d : MessageData)
    (oracle : OracleQuery → OracleResult) : StepResult :=
  let s1 := { s with
    conversation_history := s.conversation_history ++ [mkTurn d]
    turn_count := s.turn_count + 1 }
  let relayEvents :=
    if d.role = some "company" ∧ s1.investor_agent = true then [Event.relay_to_investor d]
    else if d.role = some "investor" ∧ s1.company_agent = true then [Event.relay_to_company d]
    else []
  let r := ai_check_termination s1 oracle
  ⟨r.state, relayEvents ++ r.events, r.queries, r.decision⟩

/-- `AIRelayServer.start_session` (lines 127-149): mark the session active
and notify both agents.  Note: `turn_count` and `conversation_history` are
not touched. -/
def start_session (s : ServerState) : ServerState × List Event :=
  let s1 := { s with session_active := true }
  (s1, [Event.session_start Party.company s1.company_name s1.investor_name,
        Event.session_start Party.investor s1.company_name s1.investor_name])

/-- `AIRelayServer.handle_registration` (lines 107-125): record the agent
for a recognized role (last registration wins), then start the session once
both slots are filled and no session is active. -/
def handle_registration (s : ServerState) (d : RegisterData) : ServerState × List Event :=
  let s1 :=
    if d.role = some "company" then
      { s with company_agent := true, company_name := d.name }
    else if d.role = some "investor" then
      { s with investor_agent := true, investor_name := d.name }
    else s
  if s1.company_agent = true ∧ s1.investor_agent = true ∧ s1.session_active = false then
    start_session s1
  else (s1, [])

/-- An inbound envelope as dispatched by `AIRelayServer.process_message`
(lines 96-105) on its `type` field. -/
inductive InMsg
  | register (d : RegisterData)
  | message (d : MessageData)
  | error (sender err : Option String)
deriving Repr, DecidableEq

/-- `AIRelayServer.process_message`: dispatch one envelope (an `error`
envelope is only printed). -/
def process_message (s : ServerState) (oracle : OracleQuery → OracleResult)
    (m : InMsg) : StepResult :=
  match m with
  | InMsg.register d =>
      let r := handle_registration s d
      ⟨r.1, r.2, [], none⟩
  | InMsg.message d => handle_negotiation_message s d oracle
  | InMsg.error _ _ => ⟨s, [], [], none⟩

/-- Run the relay over a sequence of inbound envelopes, accumulating all
sends in program order. -/
def runServer (oracle : OracleQuery → OracleResult) (s : ServerState)
    (ms : List InMsg) : ServerState × List Event :=
  ms.foldl (fun acc m =>
    let r := process_message acc.1 oracle m
    (r.state, acc.2 ++ r.events)) (s, [])

/-- Run the relay over `message` envelopes only, tracking the state. -/
def runMessages (oracle : OracleQuery → OracleResult) (s : ServerState)
    (ms : List MessageData) : ServerState :=
  ms.foldl (fun st d => (handle_negotiation_message st d oracle).state) s

/-- Whether an event is a relay forward of an inbound message. -/
def isRelayEvent : Event → Bool
  | Event.relay_to_investor _ => true
  | Event.relay_to_company _ => true
  | _ => false

/-- Whether an event is the `end` envelope sent to the given party. -/
def isEndTo (p : Party) : Event → Bool
  | Event.end_msg q _ => decide (p = q)
  | _ => false

/-! ### Agent-side turn post-processing (`BaseAgentAI`, src/agents/base_agent_ai.py)

`_clean_for_speech` (lines 330-354) is embedded character-list by
character-list.  Python `str.replace(old, new)` scans left to right over
non-overlapping occurrences; `str.strip()` / `str.lstrip()` drop
whitespace (resp. a given character set) from the ends.  Lean's
`Char.isWhitespace` covers the whitespace characters that can actually
occur here (space, tab, CR; newlines are already split off). -/

/-- Python `text.replace(String of [a, b], "")`: drop non-overlapping
two-character occurrences, scanning left to right. -/
def pyReplacePair (a b : Char) : List Char → List Char
  | [] => []
  | [c] => [c]
  | c :: d :: rest =>
    if c = a ∧ d = b then pyReplacePair a b rest
    else c :: pyReplacePair a b (d :: rest)

/-- Python `text.replace(String of [a], "")`: drop every occurrence of `a`. -/
def removeChar (a : Char) (l : List Char) : List Char :=
  l.filter (fun c => decide (c ≠ a))

/-- The backquote character (code point 96). -/
def backquoteChar : Char := Char.ofNat 96

/-- Lines 332-335: `text.replace` chain removing the emphasis pairs, then
every single emphasis, header and code marker character. -/
def stripMarkdown (l : List Char) : List Char :=
  removeChar backquoteChar (removeChar '#' (removeChar '_' (removeChar '*'
    (pyReplacePair '_' '_' (pyReplacePair '*' '*' l)))))

/-- Python `text.split(String of newline)` (line 337). -/
def splitLines : List Char → List (List Char)
  | [] => [[]]
  | c :: rest =>
    match splitLines rest with
    | [] => [[c]]
    | l :: ls => if c = '\n' then [] :: l :: ls else (c :: l) :: ls

/-- Python `str.lstrip` with the character predicate `p`. -/
def pyLstrip (p : Char → Bool) (l : List Char) : List Char :=
  l.dropWhile p

/-- Python `str.strip` with the character predicate `p`. -/
def pyStrip (p : Char → Bool) (l : List Char) : List Char :=
  ((l.dropWhile p).reverse.dropWhile p).reverse

/-- The character set of `line.lstrip('- â€¢*1234567890.')` on line 344
(the three bytes between the dash-space and the star are a mis-decoded
bullet glyph, kept verbatim). -/
def bulletChars : List Char :=
  ['-', ' ', 'â', '€', '¢', '*', '1', '2', '3', '4', '5', '6', '7', '8', '9', '0', '.']

/-- Membership in the bullet/numbering strip set. -/
def isBulletChar (c : Char) : Bool :=
  bulletChars.contains c

/-- The per-line body of the loop on lines 340-346: strip whitespace, skip
the line if empty, strip leading bullet/number characters then leading
whitespace, keep the line only if something remains. -/
def cleanLine (l : List Char) : Option (List Char) :=
  let l1 := pyStrip Char.isWhitespace l
  if l1 = [] then none
  else
    let l2 := pyLstrip Char.isWhitespace (pyLstrip isBulletChar l1)
    if l2 = [] then none else some l2

/-- Python `(String of one space).join(cleaned)` (line 348). -/
def joinSpace : List (List Char) → List Char
  | [] => []
  | [l] => l
  | l :: ls => l ++ ' ' :: joinSpace ls

/-- One pass of `text.replace(two spaces, one space)` (line 352). -/
def collapseOnce : List Char → List Char
  | [] => []
  | [c] => [c]
  | c :: d :: rest =>
    if c = ' ' ∧ d = ' ' then ' ' :: collapseOnce rest
    else c :: collapseOnce (d :: rest)

/-- Python `(two spaces) in text` (line 351). -/
def hasDoubleSpace : List Char → Bool
  | [] => false
  | [_] => false
  | c :: d :: rest =>
    if c = ' ' ∧ d = ' ' then true else hasDoubleSpace (d :: rest)

/-- The `while` loop of lines 351-352 with an explicit fuel bound.  Each
iteration that finds a double space strictly shrinks the text, so
`l.length` fuel always reaches the loop's fixed point
(`collapseSpaces_no_double` below proves the exit condition). -/
def collapseSpacesFuel : Nat → List Char → List Char
  | 0, l => l
  | n + 1, l => if hasDoubleSpace l then collapseSpacesFuel n (collapseOnce l) else l

/-- `while (two spaces) in text: text = text.replace(two spaces, one space)`. -/
def collapseSpaces (l : List Char) : List Char :=
  collapseSpacesFuel l.length l

/-- `BaseAgentAI._clean_for_speech` on character lists. -/
def cleanCharsForSpeech (l : List Char) : List Char :=
  pyStrip Char.isWhitespace
    (collapseSpaces (joinSpace ((splitLines (stripMarkdown l)).filterMap cleanLine)))

/-- `BaseAgentAI._clean_for_speech` (lines 330-354). -/
def clean_for_speech (s : String) : String :=
  String.mk (cleanCharsForSpeech s.data)

/-- Agent-side state relevant to sending a turn (`BaseAgentAI.__init__`). -/
structure AgentState where
  name : String
  role : String
  turn_count : Nat
deriving Repr, DecidableEq

/-- The `message` envelope an agent sends (lines 242-248). -/
structure OutMessage where
  text : String
  sender : String
  role : String
  turn : Nat
deriving Repr, DecidableEq

/-- The tail of `BaseAgentAI.ai_generate_response` (lines 201-248) after the
oracle produced `rawOracleText`: strip it (line 205/207/209), clean it for
speech (line 222), bump the agent's own turn counter (line 232), and send
the `message` envelope (lines 242-248).  The source sends unconditionally:
there is no emptiness guard between cleaning and sending. -/
def ai_generate_response (ag : AgentState) (rawOracleText : String) :
    AgentState × OutMessage :=
  let response_text := String.mk (pyStrip Char.isWhitespace rawOracleText.data)
  let cleaned := clean_for_speech response_text
  let ag1 := { ag with turn_count := ag.turn_count + 1 }
  (ag1, { text := cleaned, sender := ag.name, role := ag.role, turn := ag1.turn_count })

/-! ### Concrete scenarios used to settle the claims -/

/-- An oracle whose judgment call always raises. -/
def oracleFail : OracleQuery → OracleResult := fun _ => OracleResult.raises

/-- A mid-session state: both agents registered, oracle available,
8 turns exchanged (inside the band `min_turns ≤ 8 < max_turns`, even). -/
def c3State : ServerState :=
  { company_agent := true, investor_agent := true, company_name := some "Acme",
    investor_name := some "Fund", session_active := true, turn_count := 8,
    min_turns := 6, max_turns := 20, conversation_history := [], client := true }

/-- A judgment whose `status` is `DEAL_ACCEPTED` with confidence `0.9` but
whose `should_end` field is falsy (absent or `false`). -/
def c3Analysis : Analysis :=
  { should_end := false, status := some "DEAL_ACCEPTED",
    reason := some "the investor accepted", confidence := some ((9 : ℚ)/10) }

/-- Registration envelopes and a company turn used by the runs below. -/
def regAcme : InMsg := InMsg.register ⟨some "company", some "Acme"⟩

/-- Registration envelope for the investor agent. -/
def regFund : InMsg := InMsg.register ⟨some "investor", some "Fund"⟩

/-- A plain company turn envelope. -/
def msgAcme : InMsg := InMsg.message ⟨some "Acme", some "company", some "hi", 1⟩

/-- Full run with no oracle key: register both agents, then 20 turns —
the ceiling fires at turn 20 and the session ends.  Shared starting point
for the post-end scenarios below. -/
def endedRun : ServerState × List Event :=
  runServer oracleFail (initialState false)
    ([regAcme, regFund] ++ List.replicate 20 msgAcme)

/-- The same run with one more `message` envelope arriving after the
session has ended. -/
def c4Run : ServerState × List Event :=
  runServer oracleFail (initialState false)
    ([regAcme, regFund] ++ List.replicate 21 msgAcme)

/-- The ended run followed by a fresh registration of the company role,
which restarts the session. -/
def c7Run : ServerState × List Event :=
  runServer oracleFail (initialState false)
    ([regAcme, regFund] ++ List.replicate 20 msgAcme ++ [regAcme])

/-! ### Basic lemmas about the relay step functions -/

/-- The termination check only ever toggles `session_active`; every other
state field is left untouched. -/
theorem ai_check_state_shape (s : ServerState) (oracle : OracleQuery → OracleResult) :
    ∃ b, (ai_check_termination s oracle).state = { s with session_active := b } := by
  unfold ai_check_termination
  split
  · exact ⟨s.session_active, rfl⟩
  split
  · exact ⟨false, rfl⟩
  split
  · rcases h : ai_analyze_termination s oracle with ⟨o, qs⟩
    cases o
    · exact ⟨s.session_active, rfl⟩
    · exact ⟨false, rfl⟩
  · exact ⟨s.session_active, rfl⟩

/-- Relaying a message appends exactly one turn, increments the counter by
one, and leaves every other field except `session_active` untouched. -/
theorem handle_message_state_shape (s : ServerState) (d : MessageData)
    (oracle : OracleQuery → OracleResult) :
    ∃ b, (handle_negotiation_message s d oracle).state =
      { s with conversation_history := s.conversation_history ++ [mkTurn d],
               turn_count := s.turn_count + 1,
               session_active := b } := by
  obtain ⟨b, hb⟩ := ai_check_state_shape
    { s with conversation_history := s.conversation_history ++ [mkTurn d],
             turn_count := s.turn_count + 1 } oracle
  exact ⟨b, hb⟩

/-- History is append-only: one relayed message appends exactly its turn. -/
theorem handle_message_history (s : ServerState) (d : MessageData)
    (oracle : OracleQuery → OracleResult) :
    (handle_negotiation_message s d oracle).state.conversation_history
      = s.conversation_history ++ [mkTurn d] := by
  obtain ⟨b, hb⟩ := handle_message_state_shape s d oracle
  rw [hb]

/-- One relayed message increments `turn_count` by exactly one. -/
theorem handle_message_turn_count (s : ServerState) (d : MessageData)
    (oracle : OracleQuery → OracleResult) :
    (handle_negotiation_message s d oracle).state.turn_count = s.turn_count + 1 := by
  obtain ⟨b, hb⟩ := handle_message_state_shape s d oracle
  rw [hb]

/-- Running a batch of message envelopes adds their count to `turn_count`. -/
theorem runMessages_turn_count (oracle : OracleQuery → OracleResult)
    (ms : List MessageData) :
    ∀ s : ServerState, (runMessages oracle s ms).turn_count = s.turn_count + ms.length := by
  induction ms with
  | nil => intro s; simp [runMessages]
  | cons d ms ih =>
      intro s
      have hstep : runMessages oracle s (d :: ms)
          = runMessages oracle (handle_negotiation_message s d oracle).state ms := rfl
      rw [hstep, ih, handle_message_turn_count]
      simp [Nat.add_assoc, Nat.add_comm 1 ms.length]

/-- Running a batch of message envelopes appends exactly their turns. -/
theorem runMessages_history (oracle : OracleQuery → OracleResult)
    (ms : List MessageData) :
    ∀ s : ServerState, (runMessages oracle s ms).conversation_history
      = s.conversation_history ++ ms.map mkTurn := by
  induction ms with
  | nil => intro s; simp [runMessages]
  | cons d ms ih =>
      intro s
      have hstep : runMessages oracle s (d :: ms)
          = runMessages oracle (handle_negotiation_message s d oracle).state ms := rfl
      rw [hstep, ih, handle_message_history]
      simp

/-- At or above the turn ceiling (with the minimum reached), the check ends
the session with the `MAX_TURNS_REACHED` decision and no oracle query. -/
theorem ai_check_ceiling (s : ServerState) (oracle : OracleQuery → OracleResult)
    (hmin : s.min_turns ≤ s.turn_count) (hmax : s.max_turns ≤ s.turn_count) :
    ai_check_termination s oracle =
      ⟨{ s with session_active := false },
       (end_session s "MAX_TURNS_REACHED"
         ("Reached maximum " ++ toString s.max_turns ++ " turns. Parties need more time.")).2,
       [],
       some ("MAX_TURNS_REACHED",
         "Reached maximum " ++ toString s.max_turns ++ " turns. Parties need more time.")⟩ := by
  unfold ai_check_termination
  rw [if_neg (by omega), if_pos (by omega)]
  rfl

/-- If the oracle always fails (exception or undecodable output), the
analysis accepts nothing. -/
theorem ai_analyze_fail_none (s : ServerState) (oracle : OracleQuery → OracleResult)
    (hfail : ∀ q, oracle q = OracleResult.raises ∨ oracle q = OracleResult.malformed) :
    (ai_analyze_termination s oracle).1 = none := by
  unfold ai_analyze_termination
  by_cases hcl : s.client = false
  · rw [if_pos hcl]
  · rw [if_neg hcl]
    by_cases hodd : s.turn_count % 2 ≠ 0
    · rw [if_pos hodd]
    · rw [if_neg hodd]
      rcases hfail (buildQuery s) with h | h <;> simp [h]

/-- On an odd turn count the analysis returns immediately: no oracle query
is issued and nothing is accepted. -/
theorem ai_analyze_odd (s : ServerState) (oracle : OracleQuery → OracleResult)
    (h : s.turn_count % 2 ≠ 0) :
    ai_analyze_termination s oracle = (none, []) := by
  unfold ai_analyze_termination
  by_cases hcl : s.client = false
  · rw [if_pos hcl]
  · rw [if_neg hcl, if_pos h]

/-- The analysis issues at most the single context query built from the
current state. -/
theorem ai_analyze_queries (s : ServerState) (oracle : OracleQuery → OracleResult) :
    (ai_analyze_termination s oracle).2 = []
      ∨ (ai_analyze_termination s oracle).2 = [buildQuery s] := by
  unfold ai_analyze_termination
  by_cases hcl : s.client = false
  · rw [if_pos hcl]; exact Or.inl rfl
  rw [if_neg hcl]
  by_cases hodd : s.turn_count % 2 ≠ 0
  · rw [if_pos hodd]; exact Or.inl rfl
  rw [if_neg hodd]
  cases oracle (buildQuery s) with
  | raises => exact Or.inr rfl
  | malformed => exact Or.inr rfl
  | parsed a =>
      by_cases hg : a.should_end = true ∧ (7 : ℚ)/10 < a.confidence.getD 0
      · exact Or.inr (congrArg Prod.snd (if_pos hg))
      · exact Or.inr (congrArg Prod.snd (if_neg hg))

/-- When the oracle is available and returns a decodable judgment on an
even turn, the analysis is exactly the confidence gate applied to it. -/
theorem ai_analyze_parsed (s : ServerState) (a : Analysis)
    (oracle : OracleQuery → OracleResult)
    (hc : s.client = true) (heven : s.turn_count % 2 = 0)
    (ho : ∀ q, oracle q = OracleResult.parsed a) :
    ai_analyze_termination s oracle =
      (if a.should_end = true ∧ (7 : ℚ)/10 < a.confidence.getD 0 then some a else none,
       [buildQuery s]) := by
  unfold ai_analyze_termination
  rw [if_neg (by simp [hc]), if_neg (by simp [heven]), ho (buildQuery s)]
  by_cases hg : a.should_end = true ∧ (7 : ℚ)/10 < a.confidence.getD 0
  · rw [if_pos hg]
    exact if_pos hg
  · rw [if_neg hg]
    exact if_neg hg

/-- In the mid band the check defers entirely to the analysis: its queries
are the analysis queries, a rejected analysis leaves the state untouched,
and an accepted one ends the session with the judgment's status/reason. -/
theorem ai_check_mid_band (s : ServerState) (oracle : OracleQuery → OracleResult)
    (hmin : s.min_turns ≤ s.turn_count) (hmax : s.turn_count < s.max_turns)
    (hc : s.client = true) :
    (ai_check_termination s oracle).queries = (ai_analyze_termination s oracle).2 ∧
    ((ai_analyze_termination s oracle).1 = none →
      (ai_check_termination s oracle)
        = ⟨s, [], (ai_analyze_termination s oracle).2, none⟩) ∧
    (∀ a, (ai_analyze_termination s oracle).1 = some a →
      (ai_check_termination s oracle).decision
        = some (a.status.getD "ONGOING", a.reason.getD "AI determined negotiation complete") ∧
      (ai_check_termination s oracle).state = { s with session_active := false }) := by
  unfold ai_check_termination
  rw [if_neg (by omega), if_neg (by omega), if_pos ⟨hc, by omega⟩]
  rcases h : ai_analyze_termination s oracle with ⟨o, qs⟩
  cases o with
  | none => exact ⟨rfl, fun _ => rfl, fun a ha => by simp at ha⟩
  | some a0 =>
      refine ⟨rfl, fun hn => by simp at hn, fun a ha => ?_⟩
      have : a0 = a := by simpa using ha
      subst this
      exact ⟨rfl, rfl⟩

/-- The recent-context window never exceeds 6 turns. -/
theorem recentWindow_length_le (s : ServerState) : (recentWindow s).length ≤ 6 := by
  unfold recentWindow
  split
  · simp
    omega
  · omega

/-- The recent-context window is a suffix of the conversation history. -/
theorem recentWindow_suffix (s : ServerState) :
    ∃ t, s.conversation_history = t ++ recentWindow s := by
  unfold recentWindow
  split
  · exact ⟨s.conversation_history.take (s.conversation_history.length - 6),
      (List.take_append_drop _ _).symm⟩
  · exact ⟨[], rfl⟩

/-- Every send of `end_session` is a conclusion or an end envelope. -/
theorem end_session_no_relay (s : ServerState) (status reason : String) :
    ∀ e ∈ (end_session s status reason).2, isRelayEvent e = false := by
  intro e he
  unfold end_session at he
  simp only [List.mem_append] at he
  rcases he with ((h | h) | h) | h <;>
    · split at h <;> simp_all [isRelayEvent]

/-- The termination check never emits a relay-forward event. -/
theorem ai_check_no_relay (s : ServerState) (oracle : OracleQuery → OracleResult) :
    ∀ e ∈ (ai_check_termination s oracle).events, isRelayEvent e = false := by
  intro e he
  unfold ai_check_termination at he
  split at he
  · simp at he
  split at he
  · exact end_session_no_relay _ _ _ e he
  split at he
  · rcases h : ai_analyze_termination s oracle with ⟨o, qs⟩
    rw [h] at he
    cases o with
    | none => simp at he
    | some a => exact end_session_no_relay _ _ _ e he
  · simp at he

/-! ### Claim theorems -/

/-- Claim C1: for every session state with `turn_count ≥ max_turns` (under
`min_turns < max_turns` and `turn_count ≥ min_turns`), the termination
check ends the session with status `MAX_TURNS_REACHED` — with no oracle
query, hence independently of oracle availability (the state may have
`client = false`). -/
theorem C1_max_turn_ceiling (s : ServerState) (oracle : OracleQuery → OracleResult)
    (_hlt : s.min_turns < s.max_turns) (hmin : s.min_turns ≤ s.turn_count)
    (hmax : s.max_turns ≤ s.turn_count) :
    (ai_check_termination s oracle).decision =
      some ("MAX_TURNS_REACHED",
        "Reached maximum " ++ toString s.max_turns ++ " turns. Parties need more time.") ∧
    (ai_check_termination s oracle).state.session_active = false ∧
    (ai_check_termination s oracle).queries = [] := by
  rw [ai_check_ceiling s oracle hmin hmax]
  exact ⟨rfl, rfl, rfl⟩

/-- Witness for C1 at a concrete state with the oracle client unavailable
(`client = false`) and a failing oracle. -/
theorem C1_max_turn_ceiling_witness :
    (ai_check_termination
      { initialState false with session_active := true, turn_count := 20 }
      oracleFail).decision =
      some ("MAX_TURNS_REACHED", "Reached maximum 20 turns. Parties need more time.") ∧
    (ai_check_termination
      { initialState false with session_active := true, turn_count := 20 }
      oracleFail).state.session_active = false := by
  have h := C1_max_turn_ceiling
    { initialState false with session_active := true, turn_count := 20 }
    oracleFail (by decide) (by decide) (by decide)
  exact ⟨h.1.trans (by decide), h.2.1⟩

/-- Claim C2: with `turn_count < min_turns` the termination check performs
no oracle query, makes no decision, sends nothing and leaves the state —
in particular the session's activity — unchanged, regardless of the
conversation content and of what the oracle would answer. -/
theorem C2_min_turn_guard (s : ServerState) (oracle : OracleQuery → OracleResult)
    (h : s.turn_count < s.min_turns) :
    (ai_check_termination s oracle).state = s ∧
    (ai_check_termination s oracle).queries = [] ∧
    (ai_check_termination s oracle).decision = none ∧
    (ai_check_termination s oracle).events = [] := by
  unfold ai_check_termination
  rw [if_pos h]
  exact ⟨rfl, rfl, rfl, rfl⟩

/-- Witness for C2: an explicit acceptance phrase at `turn_count = 2` with
`min_turns = 6`, and an oracle that would report acceptance with full
confidence, still yield no decision: the session stays active. -/
theorem C2_min_turn_guard_witness :
    (ai_check_termination
      { company_agent := true, investor_agent := true, company_name := some "Acme",
        investor_name := some "Fund", session_active := true, turn_count := 2,
        min_turns := 6, max_turns := 20,
        conversation_history :=
          [{ sender := some "Acme", role := some "company", text := some "please invest", turn := 1 },
           { sender := some "Fund", role := some "investor", text := some "we accept the deal", turn := 2 }],
        client := true }
      (fun _ => OracleResult.parsed
        { should_end := true, status := some "DEAL_ACCEPTED",
          reason := some "acceptance detected", confidence := some 1 })).decision = none ∧
    (ai_check_termination
      { company_agent := true, investor_agent := true, company_name := some "Acme",
        investor_name := some "Fund", session_active := true, turn_count := 2,
        min_turns := 6, max_turns := 20,
        conversation_history :=
          [{ sender := some "Acme", role := some "company", text := some "please invest", turn := 1 },
           { sender := some "Fund", role := some "investor", text := some "we accept the deal", turn := 2 }],
        client := true }
      (fun _ => OracleResult.parsed
        { should_end := true, status := some "DEAL_ACCEPTED",
          reason := some "acceptance detected", confidence := some 1 })).state.session_active
      = true := by
  have h := C2_min_turn_guard
    { company_agent := true, investor_agent := true, company_name := some "Acme",
      investor_name := some "Fund", session_active := true, turn_count := 2,
      min_turns := 6, max_turns := 20,
      conversation_history :=
        [{ sender := some "Acme", role := some "company", text := some "please invest", turn := 1 },
         { sender := some "Fund", role := some "investor", text := some "we accept the deal", turn := 2 }],
      client := true }
    (fun _ => OracleResult.parsed
      { should_end := true, status := some "DEAL_ACCEPTED",
        reason := some "acceptance detected", confidence := some 1 })
    (by decide)
  exact ⟨h.2.2.1, by rw [h.1]⟩

/-- Claim C5: starting from a fresh session (`turn_count = 0`, empty
history), after the first `i` of a sequence of relayed message events the
turn counter equals `i`, the history length equals the turn counter, the
history so far is a prefix of the final history (append-only run), and a
single relayed message appends exactly one entry. -/
theorem C5_turn_monotonicity (oracle : OracleQuery → OracleResult) (s0 : ServerState)
    (ms : List MessageData) (i : Nat)
    (h0 : s0.turn_count = 0) (h1 : s0.conversation_history = [])
    (hi : i ≤ ms.length) :
    (runMessages oracle s0 (ms.take i)).turn_count = i ∧
    (runMessages oracle s0 (ms.take i)).conversation_history.length
      = (runMessages oracle s0 (ms.take i)).turn_count ∧
    (∃ t, (runMessages oracle s0 ms).conversation_history
      = (runMessages oracle s0 (ms.take i)).conversation_history ++ t) ∧
    (∀ (s : ServerState) (d : MessageData),
      (handle_negotiation_message s d oracle).state.conversation_history
        = s.conversation_history ++ [mkTurn d]) := by
  have htc := runMessages_turn_count oracle (ms.take i) s0
  have hh := runMessages_history oracle (ms.take i) s0
  have hhfull := runMessages_history oracle ms s0
  have hlen : (ms.take i).length = i := by
    rw [List.length_take]
    omega
  refine ⟨by rw [htc, h0, hlen, Nat.zero_add], ?_, ?_, ?_⟩
  · rw [htc, hh, h0, h1, hlen, Nat.zero_add]
    simp only [List.nil_append, List.length_map, List.length_take]
    omega
  · refine ⟨(ms.drop i).map mkTurn, ?_⟩
    rw [hh, hhfull, h1]
    simp only [List.nil_append, List.append_assoc]
    rw [← List.map_append, List.take_append_drop]
  · exact fun s d => handle_message_history s d oracle

/-- Witness for C5: two concrete relayed messages, checked after the first. -/
theorem C5_turn_monotonicity_witness :
    (runMessages oracleFail (initialState false)
      ([⟨some "Acme", some "company", some "hi", 1⟩,
        ⟨some "Fund", some "investor", some "hello", 1⟩].take 1)).turn_count = 1 ∧
    (runMessages oracleFail (initialState false)
      ([⟨some "Acme", some "company", some "hi", 1⟩,
        ⟨some "Fund", some "investor", some "hello", 1⟩].take 1)).conversation_history.length
      = 1 := by
  have h := C5_turn_monotonicity oracleFail (initialState false)
    [⟨some "Acme", some "company", some "hi", 1⟩,
     ⟨some "Fund", some "investor", some "hello", 1⟩] 1 rfl rfl (by decide)
  exact ⟨h.1, h.2.1.trans h.1⟩

/-- Claim C6: if every oracle judgment call raises or returns output that
cannot be decoded, the termination check below the ceiling decides nothing
and leaves the state untouched, and the relay keeps accepting turns (the
next message is still appended and counted). -/
theorem C6_fail_open (s : ServerState) (oracle : OracleQuery → OracleResult)
    (hfail : ∀ q, oracle q = OracleResult.raises ∨ oracle q = OracleResult.malformed)
    (hmax : s.turn_count < s.max_turns) :
    (ai_check_termination s oracle).decision = none ∧
    (ai_check_termination s oracle).state = s ∧
    (∀ d : MessageData,
      (handle_negotiation_message s d oracle).state.turn_count = s.turn_count + 1 ∧
      (handle_negotiation_message s d oracle).state.conversation_history
        = s.conversation_history ++ [mkTurn d]) := by
  refine ⟨?_, ?_, fun d => ⟨handle_message_turn_count s d oracle, handle_message_history s d oracle⟩⟩
  all_goals
    unfold ai_check_termination
    by_cases hmin : s.turn_count < s.min_turns
    · rw [if_pos hmin]
    · rw [if_neg hmin, if_neg (show ¬s.turn_count ≥ s.max_turns by omega)]
      by_cases hcl : s.client = true ∧ s.turn_count ≥ s.min_turns
      · rw [if_pos hcl]
        rcases h : ai_analyze_termination s oracle with ⟨o, qs⟩
        have hnone := ai_analyze_fail_none s oracle hfail
        rw [h] at hnone
        simp only at hnone
        subst hnone
        rfl
      · rw [if_neg hcl]

/-- Claim C8: in the mid band `min_turns ≤ turn_count < max_turns` with
the oracle client present, an odd turn count yields no oracle query and no
decision, and any issued query carries at most the 6 most recent turns (a
suffix of the history) together with the session metadata. -/
theorem C8_even_turn_window (s : ServerState) (oracle : OracleQuery → OracleResult)
    (hc : s.client = true) (hmin : s.min_turns ≤ s.turn_count)
    (hmax : s.turn_count < s.max_turns) :
    (s.turn_count % 2 = 1 →
      (ai_check_termination s oracle).queries = [] ∧
      (ai_check_termination s oracle).decision = none ∧
      (ai_check_termination s oracle).state = s) ∧
    (∀ q ∈ (ai_check_termination s oracle).queries,
      q.recent.length ≤ 6 ∧
      (∃ t, s.conversation_history = t ++ q.recent) ∧
      q.company_name = s.company_name ∧ q.investor_name = s.investor_name ∧
      q.turn_count = s.turn_count ∧ q.min_turns = s.min_turns ∧ q.max_turns = s.max_turns) := by
  have hmid := ai_check_mid_band s oracle hmin hmax hc
  constructor
  · intro hodd
    have hodd2 : s.turn_count % 2 ≠ 0 := by omega
    have hana := ai_analyze_odd s oracle hodd2
    have heq := hmid.2.1 (by rw [hana])
    rw [hana] at heq
    rw [heq]
    exact ⟨rfl, rfl, rfl⟩
  · intro q hq
    rw [hmid.1] at hq
    rcases ai_analyze_queries s oracle with hqs | hqs
    · rw [hqs] at hq
      simp at hq
    · rw [hqs] at hq
      have : q = buildQuery s := by simpa using hq
      subst this
      exact ⟨recentWindow_length_le s, recentWindow_suffix s, rfl, rfl, rfl, rfl, rfl⟩

/-- Witness for C8 at an odd mid-band turn count (7 with limits 6/20):
no query is issued even though the oracle would answer. -/
theorem C8_even_turn_window_witness :
    (ai_check_termination { c3State with turn_count := 7 } oracleFail).queries = [] ∧
    (ai_check_termination { c3State with turn_count := 7 } oracleFail).decision = none := by
  have h := C8_even_turn_window { c3State with turn_count := 7 } oracleFail
    rfl (by decide) (by decide)
  have h2 := h.1 (by decide)
  exact ⟨h2.1, h2.2.1⟩

/-- Claim C10: a message whose role is neither recognized value is still
appended to history and counted, but forwarded to neither agent; and in
general a relay-forward event is only ever emitted for one of the two
recognized role values. -/
theorem C10_unrecognized_role (s : ServerState) (d : MessageData)
    (oracle : OracleQuery → OracleResult)
    (h1 : d.role ≠ some "company") (h2 : d.role ≠ some "investor") :
    (handle_negotiation_message s d oracle).state.conversation_history
      = s.conversation_history ++ [mkTurn d] ∧
    (handle_negotiation_message s d oracle).state.turn_count = s.turn_count + 1 ∧
    (∀ e ∈ (handle_negotiation_message s d oracle).events, isRelayEvent e = false) ∧
    (∀ (s2 : ServerState) (d2 : MessageData),
      (∃ e ∈ (handle_negotiation_message s2 d2 oracle).events, isRelayEvent e = true) →
      d2.role = some "company" ∨ d2.role = some "investor") := by
  refine ⟨handle_message_history s d oracle, handle_message_turn_count s d oracle, ?_, ?_⟩
  · intro e he
    simp only [handle_negotiation_message, h1, h2, false_and, if_false,
      List.nil_append] at he
    exact ai_check_no_relay _ oracle e he
  · intro s2 d2 ⟨e, he, hrel⟩
    by_contra hcon
    push_neg at hcon
    simp only [handle_negotiation_message, hcon.1, hcon.2, false_and, if_false,
      List.nil_append] at he
    have := ai_check_no_relay _ oracle e he
    rw [this] at hrel
    exact Bool.noConfusion hrel

/-- Witness for C10: a `moderator` message is appended and counted but
produces no relay-forward event. -/
theorem C10_unrecognized_role_witness :
    (handle_negotiation_message c3State
      ⟨some "Mod", some "moderator", some "time out", 1⟩ oracleFail).state.turn_count = 9 ∧
    ((handle_negotiation_message c3State
      ⟨some "Mod", some "moderator", some "time out", 1⟩ oracleFail).state.conversation_history
      = [mkTurn ⟨some "Mod", some "moderator", some "time out", 1⟩]) := by
  have h := C10_unrecognized_role c3State
    ⟨some "Mod", some "moderator", some "time out", 1⟩ oracleFail
    (by decide) (by decide)
  exact ⟨h.2.1, h.1⟩

/-- Counterexample to claim C3 as stated: a judgment with
`status = DEAL_ACCEPTED` and confidence `0.9` (above the threshold) does
NOT end the session when its `should_end` field is falsy — the gate tests
`should_end`, not `status ≠ ONGOING`. -/
theorem C3_counterexample :
    c3Analysis.status = some "DEAL_ACCEPTED" ∧
    c3Analysis.should_end = false ∧
    c3Analysis.confidence = some ((9 : ℚ)/10) ∧
    (ai_check_termination c3State (fun _ => OracleResult.parsed c3Analysis)).decision = none ∧
    (ai_check_termination c3State
      (fun _ => OracleResult.parsed c3Analysis)).state.session_active = true := by
  refine ⟨rfl, rfl, rfl, ?_, ?_⟩ <;>
  · have hp := ai_analyze_parsed c3State c3Analysis
      (fun _ => OracleResult.parsed c3Analysis) rfl (by decide) (fun _ => rfl)
    rw [if_neg (fun hh => by exact absurd hh.1 (by decide))] at hp
    have hmid := ai_check_mid_band c3State (fun _ => OracleResult.parsed c3Analysis)
      (by decide) (by decide) rfl
    have heq := hmid.2.1 (by rw [hp])
    rw [heq]
    try rfl

/-- Claim C3 amended: a decoded judgment is acted upon exactly when its
`should_end` field is truthy and its confidence exceeds `0.7`; the
`status` field is not consulted by the gate (it only labels the ending).
When acted upon the session ends with that status (default `ONGOING`);
otherwise the state is untouched. -/
theorem C3_amended_confidence_gate (s : ServerState) (a : Analysis)
    (oracle : OracleQuery → OracleResult)
    (hc : s.client = true) (hmin : s.min_turns ≤ s.turn_count)
    (hmax : s.turn_count < s.max_turns) (heven : s.turn_count % 2 = 0)
    (ho : ∀ q, oracle q = OracleResult.parsed a) :
    ((a.should_end = true ∧ (7 : ℚ)/10 < a.confidence.getD 0) →
      (ai_check_termination s oracle).decision
        = some (a.status.getD "ONGOING", a.reason.getD "AI determined negotiation complete") ∧
      (ai_check_termination s oracle).state.session_active = false) ∧
    (¬(a.should_end = true ∧ (7 : ℚ)/10 < a.confidence.getD 0) →
      (ai_check_termination s oracle).decision = none ∧
      (ai_check_termination s oracle).state = s) := by
  have hp := ai_analyze_parsed s a oracle hc heven ho
  have hmid := ai_check_mid_band s oracle hmin hmax hc
  constructor
  · intro hgate
    rw [if_pos hgate] at hp
    have h := hmid.2.2 a (by rw [hp])
    exact ⟨h.1, by rw [h.2]⟩
  · intro hgate
    rw [if_neg hgate] at hp
    have h := hmid.2.1 (by rw [hp])
    rw [hp] at h
    rw [h]
    exact ⟨rfl, rfl⟩

/-- Witness for the amended C3: the same `DEAL_ACCEPTED` judgment with
confidence `0.9` and `should_end` true does end the session. -/
theorem C3_amended_confidence_gate_witness :
    (ai_check_termination c3State
      (fun _ => OracleResult.parsed { c3Analysis with should_end := true })).decision
      = some ("DEAL_ACCEPTED", "the investor accepted") ∧
    (ai_check_termination c3State
      (fun _ => OracleResult.parsed
        { c3Analysis with should_end := true })).state.session_active = false := by
  have h := C3_amended_confidence_gate c3State { c3Analysis with should_end := true }
    (fun _ => OracleResult.parsed { c3Analysis with should_end := true })
    rfl (by decide) (by decide) (by decide) (fun _ => rfl)
  have h2 := h.1 ⟨rfl, by norm_num [c3Analysis, Option.getD]⟩
  exact ⟨h2.1, h2.2⟩

set_option maxRecDepth 100000 in
/-- Counterexample to claim C4 as stated: running the relay past the turn
ceiling shows the `end` envelope broadcast twice to each agent, and the
message arriving after the session ended is still appended (history and
turn count reach 21 although the session ended at turn 20). -/
theorem C4_counterexample :
    endedRun.1.session_active = false ∧
    endedRun.1.turn_count = 20 ∧
    ((endedRun.2.filter (isEndTo Party.company)).length = 1) ∧
    ((c4Run.2.filter (isEndTo Party.company)).length = 2) ∧
    ((c4Run.2.filter (isEndTo Party.investor)).length = 2) ∧
    c4Run.1.turn_count = 21 ∧
    c4Run.1.conversation_history.length = 21 := by decide

/-- Claim C4 amended: the relay does not consult `session_active` when a
`message` envelope arrives: after the session has ended, a further message
is still appended to history and still increments `turn_count`, and (at or
above the ceiling) triggers a fresh `end` broadcast, so `end` can be sent
more than once per session. -/
theorem C4_amended_no_end_guard (s : ServerState) (d : MessageData)
    (oracle : OracleQuery → OracleResult) (_hend : s.session_active = false) :
    (handle_negotiation_message s d oracle).state.conversation_history
      = s.conversation_history ++ [mkTurn d] ∧
    (handle_negotiation_message s d oracle).state.turn_count = s.turn_count + 1 ∧
    (s.min_turns ≤ s.turn_count + 1 → s.max_turns ≤ s.turn_count + 1 →
      s.company_agent = true → s.investor_agent = true →
      (handle_negotiation_message s d oracle).decision
        = some ("MAX_TURNS_REACHED",
            "Reached maximum " ++ toString s.max_turns ++ " turns. Parties need more time.") ∧
      Event.end_msg Party.company
          ("Reached maximum " ++ toString s.max_turns ++ " turns. Parties need more time.")
        ∈ (handle_negotiation_message s d oracle).events ∧
      Event.end_msg Party.investor
          ("Reached maximum " ++ toString s.max_turns ++ " turns. Parties need more time.")
        ∈ (handle_negotiation_message s d oracle).events) := by
  refine ⟨handle_message_history s d oracle, handle_message_turn_count s d oracle, ?_⟩
  intro hmin hmax hcomp hinv
  have hceil := ai_check_ceiling
    { s with conversation_history := s.conversation_history ++ [mkTurn d],
             turn_count := s.turn_count + 1 } oracle (by simpa using hmin) (by simpa using hmax)
  have hev : (handle_negotiation_message s d oracle).events
      = (if d.role = some "company" ∧ s.investor_agent = true then [Event.relay_to_investor d]
         else if d.role = some "investor" ∧ s.company_agent = true then [Event.relay_to_company d]
         else [])
        ++ (ai_check_termination
          { s with conversation_history := s.conversation_history ++ [mkTurn d],
                   turn_count := s.turn_count + 1 } oracle).events := rfl
  have hdec : (handle_negotiation_message s d oracle).decision
      = (ai_check_termination
          { s with conversation_history := s.conversation_history ++ [mkTurn d],
                   turn_count := s.turn_count + 1 } oracle).decision := rfl
  refine ⟨by rw [hdec, hceil], ?_, ?_⟩ <;>
  · rw [hev, hceil]
    refine List.mem_append_right _ ?_
    simp [end_session, hcomp, hinv]

/-- Witness for the amended C4: a message arriving in an ended session at
the ceiling is appended and triggers a second end broadcast. -/
theorem C4_amended_no_end_guard_witness :
    (handle_negotiation_message
      { c3State with session_active := false, turn_count := 20 }
      ⟨some "Acme", some "company", some "hi", 1⟩ oracleFail).state.turn_count = 21 ∧
    Event.end_msg Party.company "Reached maximum 20 turns. Parties need more time."
      ∈ (handle_negotiation_message
          { c3State with session_active := false, turn_count := 20 }
          ⟨some "Acme", some "company", some "hi", 1⟩ oracleFail).events := by
  have h := C4_amended_no_end_guard
    { c3State with session_active := false, turn_count := 20 }
    ⟨some "Acme", some "company", some "hi", 1⟩ oracleFail rfl
  have h3 := h.2.2 (by decide) (by decide) rfl rfl
  exact ⟨h.2.1, by simpa using h3.2.1⟩

set_option maxRecDepth 100000 in
/-- Counterexample to claim C7 as stated: after the ended 20-turn run, a
fresh registration does start a new session, but `turn_count` is still 20
and the 20 old history entries are still there — nothing is reset. -/
theorem C7_counterexample :
    endedRun.1.session_active = false ∧
    c7Run.1.session_active = true ∧
    c7Run.1.turn_count = 20 ∧
    c7Run.1.conversation_history.length = 20 := by decide

/-- Claim C7 amended: a further registration with the counterpart slot
still filled and the session inactive does start a new session cycle, but
the session state is NOT reset: the new session keeps the previous
`turn_count` and conversation history; only `session_active` returns to
true. -/
theorem C7_amended_no_reset (s : ServerState) (d : RegisterData)
    (hrole : d.role = some "company") (hinv : s.investor_agent = true)
    (hact : s.session_active = false) :
    (handle_registration s d).1.session_active = true ∧
    (handle_registration s d).1.turn_count = s.turn_count ∧
    (handle_registration s d).1.conversation_history = s.conversation_history := by
  unfold handle_registration start_session
  rw [if_pos hrole]
  rw [if_pos (show ({ s with company_agent := true, company_name := d.name
    } : ServerState).company_agent = true
      ∧ ({ s with company_agent := true, company_name := d.name } : ServerState).investor_agent = true
      ∧ ({ s with company_agent := true, company_name := d.name } : ServerState).session_active = false
    from ⟨rfl, hinv, hact⟩)]
  exact ⟨rfl, rfl, rfl⟩

/-- Witness for the amended C7 at a concrete ended session with 20 turns. -/
theorem C7_amended_no_reset_witness :
    (handle_registration
      { c3State with
          session_active := false, turn_count := 20,
          conversation_history := [mkTurn ⟨some "Acme", some "company", some "hi", 1⟩] }
      ⟨some "company", some "Acme"⟩).1.session_active = true ∧
    (handle_registration
      { c3State with
          session_active := false, turn_count := 20,
          conversation_history := [mkTurn ⟨some "Acme", some "company", some "hi", 1⟩] }
      ⟨some "company", some "Acme"⟩).1.turn_count = 20 := by
  have h := C7_amended_no_reset
    { c3State with
        session_active := false, turn_count := 20,
        conversation_history := [mkTurn ⟨some "Acme", some "company", some "hi", 1⟩] }
    ⟨some "company", some "Acme"⟩ rfl rfl rfl
  exact ⟨h.1, h.2.1⟩

/-! ### Lemmas about the agent-side sanitizer -/

/-- Dropping two-character occurrences only drops characters. -/
theorem mem_pyReplacePair (a b c : Char) :
    (l : List Char) → c ∈ pyReplacePair a b l → c ∈ l
  | [], h => h
  | [_], h => h
  | x :: y :: rest, h => by
      simp only [pyReplacePair] at h
      split at h
      · exact List.mem_cons_of_mem _ (List.mem_cons_of_mem _ (mem_pyReplacePair a b c rest h))
      · rcases List.mem_cons.mp h with h1 | h1
        · exact List.mem_cons.mpr (Or.inl h1)
        · exact List.mem_cons_of_mem _ (mem_pyReplacePair a b c (y :: rest) h1)

/-- A character surviving `removeChar` was present and differs from the
removed one. -/
theorem mem_removeChar (a c : Char) (l : List Char) (h : c ∈ removeChar a l) :
    c ∈ l ∧ c ≠ a := by
  unfold removeChar at h
  simp only [List.mem_filter, decide_eq_true_eq] at h
  exact h

/-- No markdown marker character survives `stripMarkdown`. -/
theorem mem_stripMarkdown (c : Char) (l : List Char) (h : c ∈ stripMarkdown l) :
    c ≠ '*' ∧ c ≠ '_' ∧ c ≠ '#' ∧ c ≠ backquoteChar := by
  unfold stripMarkdown at h
  obtain ⟨h, hbq⟩ := mem_removeChar _ _ _ h
  obtain ⟨h, hh⟩ := mem_removeChar _ _ _ h
  obtain ⟨h, hu⟩ := mem_removeChar _ _ _ h
  obtain ⟨_, hs⟩ := mem_removeChar _ _ _ h
  exact ⟨hs, hu, hh, hbq⟩

/-- Every character of every line produced by `splitLines` comes from the
input. -/
theorem mem_splitLines (c : Char) :
    (l : List Char) → (line : List Char) → line ∈ splitLines l → c ∈ line → c ∈ l
  | [], line, hl, hc => by
      simp only [splitLines, List.mem_singleton] at hl
      subst hl
      simp at hc
  | x :: rest, line, hl, hc => by
      rcases hsr : splitLines rest with _ | ⟨l0, ls⟩
      · simp only [splitLines, hsr, List.mem_singleton] at hl
        subst hl
        simp only [List.mem_singleton] at hc
        subst hc
        exact List.mem_cons_self _ _
      · simp only [splitLines, hsr] at hl
        split at hl
        · rcases List.mem_cons.mp hl with h1 | h1
          · subst h1; simp at hc
          · have : line ∈ splitLines rest := by rw [hsr]; exact h1
            exact List.mem_cons_of_mem _ (mem_splitLines c rest line this hc)
        · rcases List.mem_cons.mp hl with h1 | h1
          · subst h1
            rcases List.mem_cons.mp hc with h2 | h2
            · subst h2; exact List.mem_cons_self _ _
            · have : l0 ∈ splitLines rest := by rw [hsr]; exact List.mem_cons_self _ _
              exact List.mem_cons_of_mem _ (mem_splitLines c rest l0 this h2)
          · have : line ∈ splitLines rest := by rw [hsr]; exact List.mem_cons_of_mem _ h1
            exact List.mem_cons_of_mem _ (mem_splitLines c rest line this hc)

/-- `dropWhile` only drops characters. -/
theorem mem_dropWhileChar (p : Char → Bool) (c : Char) :
    (l : List Char) → c ∈ l.dropWhile p → c ∈ l
  | [], h => h
  | x :: rest, h => by
      rw [List.dropWhile_cons] at h
      split at h
      · exact List.mem_cons_of_mem _ (mem_dropWhileChar p c rest h)
      · exact h

/-- `pyLstrip` only drops characters. -/
theorem mem_pyLstrip (p : Char → Bool) (c : Char) (l : List Char)
    (h : c ∈ pyLstrip p l) : c ∈ l :=
  mem_dropWhileChar p c l h

/-- `pyStrip` only drops characters. -/
theorem mem_pyStrip (p : Char → Bool) (c : Char) (l : List Char)
    (h : c ∈ pyStrip p l) : c ∈ l := by
  unfold pyStrip at h
  rw [List.mem_reverse] at h
  have h2 := mem_dropWhileChar _ _ _ h
  rw [List.mem_reverse] at h2
  exact mem_dropWhileChar _ _ _ h2

/-- A kept cleaned line only contains characters of the original line. -/
theorem mem_cleanLine (l out : List Char) (h : cleanLine l = some out)
    (c : Char) (hc : c ∈ out) : c ∈ l := by
  simp only [cleanLine] at h
  split at h
  · exact absurd h (by simp)
  split at h
  · exact absurd h (by simp)
  · have hout := Option.some.inj h
    subst hout
    exact mem_pyStrip _ _ _ (mem_pyLstrip _ _ _ (mem_pyLstrip _ _ _ hc))

/-- A character of the joined text is a separator space or comes from one
of the lines. -/
theorem mem_joinSpace (c : Char) :
    (ls : List (List Char)) → c ∈ joinSpace ls → c = ' ' ∨ ∃ l ∈ ls, c ∈ l
  | [], h => by simp [joinSpace] at h
  | [l], h => Or.inr ⟨l, by simp, by simpa [joinSpace] using h⟩
  | l :: l2 :: ls, h => by
      simp only [joinSpace] at h
      rcases List.mem_append.mp h with h1 | h1
      · exact Or.inr ⟨l, List.mem_cons_self _ _, h1⟩
      · rcases List.mem_cons.mp h1 with h2 | h2
        · exact Or.inl h2
        · rcases mem_joinSpace c (l2 :: ls) h2 with h3 | ⟨l3, hl3, hc3⟩
          · exact Or.inl h3
          · exact Or.inr ⟨l3, List.mem_cons_of_mem _ hl3, hc3⟩

/-- One collapse pass only drops characters (the kept space was present). -/
theorem mem_collapseOnce (c : Char) :
    (l : List Char) → c ∈ collapseOnce l → c ∈ l
  | [], h => h
  | [_], h => h
  | x :: y :: rest, h => by
      simp only [collapseOnce] at h
      split at h
      · rename_i hxy
        rcases List.mem_cons.mp h with h1 | h1
        · subst h1
          rw [hxy.1]
          exact List.mem_cons_self _ _
        · exact List.mem_cons_of_mem _ (List.mem_cons_of_mem _ (mem_collapseOnce c rest h1))
      · rcases List.mem_cons.mp h with h1 | h1
        · subst h1
          exact List.mem_cons_self _ _
        · exact List.mem_cons_of_mem _ (mem_collapseOnce c (y :: rest) h1)

/-- The fuelled collapse loop only drops characters. -/
theorem mem_collapseSpacesFuel (c : Char) :
    (n : Nat) → (l : List Char) → c ∈ collapseSpacesFuel n l → c ∈ l
  | 0, _, h => h
  | n + 1, l, h => by
      simp only [collapseSpacesFuel] at h
      split at h
      · exact mem_collapseOnce c l (mem_collapseSpacesFuel c n (collapseOnce l) h)
      · exact h

/-- One collapse pass never grows the text. -/
theorem collapseOnce_length_le :
    (l : List Char) → (collapseOnce l).length ≤ l.length
  | [] => Nat.le_refl _
  | [_] => Nat.le_refl _
  | x :: y :: rest => by
      have h1 := collapseOnce_length_le rest
      have h2 := collapseOnce_length_le (y :: rest)
      simp only [collapseOnce]
      split <;> simp only [List.length_cons] at h2 ⊢ <;> omega

/-- A collapse pass that found a double space strictly shrinks the text. -/
theorem collapseOnce_length_lt :
    (l : List Char) → hasDoubleSpace l = true → (collapseOnce l).length < l.length
  | [], h => by simp [hasDoubleSpace] at h
  | [_], h => by simp [hasDoubleSpace] at h
  | x :: y :: rest, h => by
      simp only [hasDoubleSpace] at h
      simp only [collapseOnce]
      split
      · have h2 := collapseOnce_length_le rest
        simp only [List.length_cons]
        omega
      · rename_i hxy
        rw [if_neg hxy] at h
        have hlt := collapseOnce_length_lt (y :: rest) h
        simp only [List.length_cons] at hlt ⊢
        omega

/-- With fuel at least the length of the text, the collapse loop reaches
its fixed point: no double space remains. -/
theorem collapseSpacesFuel_no_double :
    (n : Nat) → (l : List Char) → l.length ≤ n →
      hasDoubleSpace (collapseSpacesFuel n l) = false
  | 0, l, hle => by
      have : l = [] := List.eq_nil_of_length_eq_zero (Nat.le_zero.mp hle)
      subst this
      rfl
  | n + 1, l, hle => by
      simp only [collapseSpacesFuel]
      split
      · rename_i hd
        exact collapseSpacesFuel_no_double n (collapseOnce l)
          (by have := collapseOnce_length_lt l hd; omega)
      · rename_i hd
        simpa using hd

/-- The collapse loop leaves no double space. -/
theorem collapseSpaces_no_double (l : List Char) :
    hasDoubleSpace (collapseSpaces l) = false :=
  collapseSpacesFuel_no_double l.length l (Nat.le_refl _)

/-- A double space anywhere in the tail is a double space in the list. -/
theorem hasDoubleSpace_cons (c : Char) (l : List Char)
    (h : hasDoubleSpace l = true) : hasDoubleSpace (c :: l) = true := by
  match l with
  | [] => simp [hasDoubleSpace] at h
  | d :: rest =>
      simp only [hasDoubleSpace]
      split
      · rfl
      · exact h

/-- A list containing two adjacent spaces has a double space. -/
theorem hasDoubleSpace_of_parts :
    (x y : List Char) → hasDoubleSpace (x ++ ' ' :: ' ' :: y) = true
  | [], y => by simp [hasDoubleSpace]
  | c :: x, y => hasDoubleSpace_cons c _ (hasDoubleSpace_of_parts x y)

/-- A detected double space yields an explicit decomposition. -/
theorem hasDoubleSpace_parts :
    (l : List Char) → hasDoubleSpace l = true → ∃ x y, l = x ++ ' ' :: ' ' :: y
  | [], h => by simp [hasDoubleSpace] at h
  | [_], h => by simp [hasDoubleSpace] at h
  | c :: d :: rest, h => by
      simp only [hasDoubleSpace] at h
      split at h
      · rename_i hcd
        exact ⟨[], rest, by rw [hcd.1, hcd.2]; rfl⟩
      · obtain ⟨x, y, hxy⟩ := hasDoubleSpace_parts (d :: rest) h
        exact ⟨c :: x, y, by rw [List.cons_append, ← hxy]⟩

/-- `pyStrip` removes only a prefix and a suffix. -/
theorem pyStrip_parts (p : Char → Bool) (l : List Char) :
    ∃ u v, l = u ++ (pyStrip p l ++ v) := by
  refine ⟨l.takeWhile p, ((l.dropWhile p).reverse.takeWhile p).reverse, ?_⟩
  have h1 : pyStrip p l ++ ((l.dropWhile p).reverse.takeWhile p).reverse
      = l.dropWhile p := by
    unfold pyStrip
    rw [← List.reverse_append, List.takeWhile_append_dropWhile, List.reverse_reverse]
  rw [h1, List.takeWhile_append_dropWhile]

/-- Stripping the ends cannot create a double space. -/
theorem no_double_pyStrip (p : Char → Bool) (l : List Char)
    (h : hasDoubleSpace l = false) : hasDoubleSpace (pyStrip p l) = false := by
  by_contra hc
  rw [Bool.not_eq_false] at hc
  obtain ⟨x, y, hxy⟩ := hasDoubleSpace_parts _ hc
  obtain ⟨u, v, huv⟩ := pyStrip_parts p l
  rw [hxy] at huv
  have hdl : hasDoubleSpace l = true := by
    rw [huv]
    have hp := hasDoubleSpace_of_parts (u ++ x) (y ++ v)
    simpa [List.append_assoc] using hp
  rw [hdl] at h
  exact Bool.noConfusion h

/-- Every character of the cleaned text is a separator space or a survivor
of the markdown stripping pass. -/
theorem mem_cleanCharsForSpeech (c : Char) (l : List Char)
    (h : c ∈ cleanCharsForSpeech l) : c = ' ' ∨ c ∈ stripMarkdown l := by
  unfold cleanCharsForSpeech at h
  have h1 := mem_pyStrip _ _ _ h
  unfold collapseSpaces at h1
  have h2 := mem_collapseSpacesFuel _ _ _ h1
  rcases mem_joinSpace _ _ h2 with h3 | ⟨line, hline, hcline⟩
  · exact Or.inl h3
  · rcases List.mem_filterMap.mp hline with ⟨l0, hl0, hcl⟩
    exact Or.inr (mem_splitLines _ _ _ hl0 (mem_cleanLine _ _ hcl _ hcline))

/-- The cleaned text contains no double space. -/
theorem cleanCharsForSpeech_no_double (l : List Char) :
    hasDoubleSpace (cleanCharsForSpeech l) = false := by
  unfold cleanCharsForSpeech
  exact no_double_pyStrip _ _ (collapseSpaces_no_double _)

/-- Counterexample to claim C9 as stated: for the raw oracle output
consisting only of markdown (here two emphasis stars), the sanitized
result is empty, yet the agent still sends the turn — the `message`
envelope with empty text is produced, not a no-op. -/
theorem C9_counterexample :
    clean_for_speech "**" = "" ∧
    (ai_generate_response ⟨"Acme", "company", 3⟩ "**").2
      = { text := "", sender := "Acme", role := "company", turn := 4 } := by
  exact ⟨by decide, by decide⟩

/-- Claim C9 amended: the transmitted text is the sanitized oracle output:
it contains none of the marker characters (star, underscore, hash,
backquote — so no emphasis, header or code markers), and no two
consecutive spaces; leading bullets/numbering are stripped line by line,
as on the concrete inputs below; but an empty sanitized result is still
transmitted as an empty turn (there is no emptiness guard). -/
theorem C9_amended_sanitized_send (ag : AgentState) (raw : String) :
    (ai_generate_response ag raw).2.text
      = clean_for_speech (String.mk (pyStrip Char.isWhitespace raw.data)) ∧
    (∀ c ∈ ((ai_generate_response ag raw).2.text).data,
       c ≠ '*' ∧ c ≠ '_' ∧ c ≠ '#' ∧ c ≠ backquoteChar) ∧
    hasDoubleSpace ((ai_generate_response ag raw).2.text).data = false ∧
    clean_for_speech "- hello\n2. world" = "hello world" ∧
    clean_for_speech "# Terms:\n* we **offer** 5M\n\n- agreed" = "Terms: we offer 5M agreed" ∧
    clean_for_speech "a  b   c" = "a b c" := by
  have h_text : (ai_generate_response ag raw).2.text
      = clean_for_speech (String.mk (pyStrip Char.isWhitespace raw.data)) := rfl
  have h_data : ∀ s : String, (clean_for_speech s).data = cleanCharsForSpeech s.data :=
    fun _ => rfl
  have h_mk : ∀ l : List Char, (String.mk l).data = l := fun _ => rfl
  refine ⟨h_text, ?_, ?_, by decide, by decide, by decide⟩
  · intro c hc
    rw [h_text, h_data, h_mk] at hc
    rcases mem_cleanCharsForSpeech c _ hc with h | h
    · subst h
      refine ⟨by decide, by decide, by decide, by decide⟩
    · exact mem_stripMarkdown c _ h
  · rw [h_text, h_data, h_mk]
    exact cleanCharsForSpeech_no_double _

/-- Witness for C6 at a concrete mid-band state with an always-failing
oracle: no decision, state untouched, next turn still counted. -/
theorem C6_fail_open_witness :
    (ai_check_termination c3State oracleFail).decision = none ∧
    (ai_check_termination c3State oracleFail).state.session_active = true ∧
    (handle_negotiation_message c3State ⟨some "Acme", some "company", some "hi", 1⟩
      oracleFail).state.turn_count = 9 := by
  have h := C6_fail_open c3State oracleFail (fun _ => Or.inl rfl) (by decide)
  refine ⟨h.1, by rw [h.2.1]; rfl, (h.2.2 ⟨some "Acme", some "company", some "hi", 1⟩).1⟩
